import Mathlib

/-!
Verification development for the `ixfeed` IndexNow submitter.

The definitions below are a shallow embedding of the program's core logic:

* `src/submit.rs` — batch submission engine (`MAX_BATCH_SIZE`,
  `print_status_response`, the shared status check of `submit_single` /
  `submit_bulk`, and `submit_in_batches`);
* `src/main.rs` — change detection and run orchestration
  (`handle_first_run`, `handle_subsequent_run`);
* `src/db.rs` — the persisted `url -> last known modification marker`
  mapping (`get_urls_with_dates_for_source`, `add_url_with_date_for_source`);
* `src/sitemap.rs` — the recursive sitemap traversal
  (`fetch_sitemap_recursive`, `fetch_sitemap_urls`).

Network effects are replaced by explicit oracles: HTTP response statuses are
a function from the index of the request to the status code, and sitemap
document retrieval is a function from a reference to an optional document.
-/

/-- `UrlEntry` from `src/feed.rs`: a URL with an optional modification
marker (`lastmod` / feed date), both opaque strings. -/
structure UrlEntry where
  url : String
  date : Option String
deriving DecidableEq, Repr

/-- `SubmitReason` from `src/submit.rs`. -/
inductive SubmitReason where
  | new : SubmitReason
  | modified (date : String) : SubmitReason
deriving DecidableEq, Repr

/-- `SubmitEntry` from `src/submit.rs`. -/
structure SubmitEntry where
  url : String
  reason : SubmitReason
deriving DecidableEq, Repr

/-- The per-source submission configuration consumed by `src/submit.rs`
(`cfg.api_key`, `cfg.host`, `cfg.searchengine`). -/
structure Config where
  api_key : String
  host : String
  searchengine : String
deriving DecidableEq, Repr

/-- `MAX_BATCH_SIZE` from `src/submit.rs`: IndexNow limit of 10,000 URLs
per bulk submission. -/
def MAX_BATCH_SIZE : Nat := 10000

/-- Return value of `print_status_response` in `src/submit.rs`: statuses
200 and 202 (and the catch-all "Unexpected response" arm) return `Ok`,
while 400/401/403/422/429 return the typed error of the corresponding
match arm. -/
def print_status_response (status : Nat) : Except String Unit :=
  match status with
  | 200 => .ok ()
  | 202 => .ok ()
  | 400 => .error "Bad Request"
  | 401 => .error "Unauthorized"
  | 403 => .error "Forbidden"
  | 422 => .error "Unprocessable Entity"
  | 429 => .error "Rate limit exceeded"
  | _ => .ok ()

/-- The outcome of one submission request, single or bulk: both
`submit_single` and `submit_bulk` in `src/submit.rs` first propagate the
result of `print_status_response` and then fail with
`"Submission failed with status {status}"` unless the status is a 2xx
success code or 202 (`!status.is_success() && status.as_u16() != 202`). -/
def submit_call_result (status : Nat) : Except String Unit :=
  match print_status_response status with
  | .error e => .error e
  | .ok _ =>
    if (200 ≤ status ∧ status ≤ 299) ∨ status = 202 then .ok ()
    else .error ("Submission failed with status " ++ toString status)

/-- The wire shape of one submission request (`src/submit.rs`):
`single` is the GET of `submit_single` with `url` and `key` query
parameters; `bulk` is the POST of `submit_bulk` with JSON body fields
`host`, `key` and `urlList`. -/
inductive ApiCall where
  | single (searchengine url key : String) : ApiCall
  | bulk (searchengine host key : String) (urlList : List String) : ApiCall
deriving DecidableEq, Repr

/-- Which request `submit_in_batches` issues for one chunk:
`if chunk.len() == 1` it calls `submit_single(cfg, &chunk[0])`, otherwise
`submit_bulk(cfg, chunk)`. -/
def callOf (cfg : Config) (chunk : List SubmitEntry) : ApiCall :=
  if chunk.length = 1 then
    .single cfg.searchengine (chunk.headD ⟨"", .new⟩).url cfg.api_key
  else
    .bulk cfg.searchengine cfg.host cfg.api_key (chunk.map (fun e => e.url))

/-- `entries.chunks(n)` from Rust's slice API as used by
`submit_in_batches`: consecutive chunks of at most `n` elements, none
empty, and no chunk at all for an empty slice. -/
def chunksOf : Nat → List α → List (List α)
  | _, [] => []
  | 0, _ :: _ => []
  | n + 1, x :: xs =>
    (x :: xs).take (n + 1) :: chunksOf (n + 1) ((x :: xs).drop (n + 1))
termination_by _ l => l.length
decreasing_by
  simp only [List.length_drop, List.length_cons]
  omega

/-- The batch loop of `submit_in_batches`: issue the call for each chunk in
order; the status of the `i`-th request is `resp i`; a failing
`submit_single`/`submit_bulk` propagates its error via `?`, so later chunks
are not attempted.  Returns the list of requests actually issued together
with the final result. -/
def runBatches (cfg : Config) (resp : Nat → Nat) :
    List (List SubmitEntry) → Nat → List ApiCall × Except String Unit
  | [], _ => ([], .ok ())
  | c :: cs, i =>
    match submit_call_result (resp i) with
    | .error e => ([callOf cfg c], .error e)
    | .ok _ =>
      let r := runBatches cfg resp cs (i + 1)
      (callOf cfg c :: r.1, r.2)

/-- `submit_in_batches` from `src/submit.rs`: chunk the entries by
`MAX_BATCH_SIZE` and submit each chunk in order. -/
def submit_in_batches (cfg : Config) (resp : Nat → Nat)
    (entries : List SubmitEntry) : List ApiCall × Except String Unit :=
  runBatches cfg resp (chunksOf MAX_BATCH_SIZE entries) 0

/-- The fatal statuses of the §4.3 table: the arms of
`print_status_response` that return an error. -/
def fatalStatuses : List Nat := [400, 401, 403, 422, 429]

/-- The persisted `url -> last known modification marker` mapping returned
by `get_urls_with_dates_for_source` in `src/db.rs`
(`HashMap<String, Option<String>>`), modelled as a partial map: `st u = none`
means no record for `u`, `st u = some d` means a record whose
`last_modified` column holds `d`. -/
abbrev StateMap : Type := String → Option (Option String)

/-- `add_url_with_date_for_source` from `src/db.rs`: insert-or-update of
the single record for `(source, url)` (UNIQUE constraint). -/
def StateMap.insert (st : StateMap) (u : String) (d : Option String) : StateMap :=
  fun v => if v = u then some d else st v

/-- The empty persisted state (no record for any URL). -/
def emptyState : StateMap := fun _ => none

/-- The classification of one fetched entry against persisted state, from
the loop of `handle_subsequent_run` in `src/main.rs`: a URL absent from
the stored map is pushed as `New`; a present URL is pushed as `Modified`
with the fresh date iff the entry carries a date and either no stored date
exists or the dates differ; otherwise nothing is pushed. -/
def classifyEntry (st : StateMap) (e : UrlEntry) : Option SubmitEntry :=
  match st e.url with
  | some stored =>
    match e.date with
    | some newDate =>
      let isModified : Bool :=
        match stored with
        | some oldDate => newDate != oldDate
        | none => true
      if isModified then some ⟨e.url, .modified newDate⟩ else none
    | none => none
  | none => some ⟨e.url, .new⟩

/-- The full submission set built by the classification loop of
`handle_subsequent_run`, in entry order. -/
def detect (st : StateMap) (entries : List UrlEntry) : List SubmitEntry :=
  entries.filterMap (classifyEntry st)

/-- The storing loop of `handle_first_run` in `src/main.rs`: every fetched
entry is recorded via `add_url_with_date_for_source` before the user is
asked anything. -/
def storeAll (st : StateMap) (entries : List UrlEntry) : StateMap :=
  entries.foldl (fun s e => s.insert e.url e.date) st

/-- The marker persisted for one submitted entry by the update loop of
`handle_subsequent_run`: a `New` entry records the date of the first
fetched entry with its URL (if any); a `Modified` entry records the new
date. -/
def resolveDate (entries : List UrlEntry) (se : SubmitEntry) : Option String :=
  match se.reason with
  | .new => (entries.find? (fun e => e.url == se.url)).bind (fun e => e.date)
  | .modified d => some d

/-- The database-update loop of `handle_subsequent_run`, executed only
after `submit_in_batches` returned `Ok`: each submitted entry is recorded
with its resolved date. -/
def updateAfterSubmit (st : StateMap) (entries : List UrlEntry)
    (toSubmit : List SubmitEntry) : StateMap :=
  toSubmit.foldl (fun s se => s.insert se.url (resolveDate entries se)) st

/-- `handle_subsequent_run` from `src/main.rs`: classify the fetched
entries, return early if nothing is to submit or the user cancels,
otherwise submit in batches; the database is updated (and only then) after
the whole `submit_in_batches` call returned `Ok`.  The result pairs the
final persisted state with the run outcome. -/
def handle_subsequent_run (cfg : Config) (st : StateMap)
    (entries : List UrlEntry) (confirm : Bool) (resp : Nat → Nat) :
    StateMap × Except String Unit :=
  let toSubmit := detect st entries
  if toSubmit.isEmpty then (st, .ok ())
  else if confirm then
    match (submit_in_batches cfg resp toSubmit).2 with
    | .error e => (st, .error e)
    | .ok _ => (updateAfterSubmit st entries toSubmit, .ok ())
  else (st, .ok ())

/-- `handle_first_run` from `src/main.rs`: store every fetched entry, then
(on user acceptance) submit the full set as `New`; a failing submission
propagates before `mark_source_first_run_completed` is reached, and any
successful completion — acceptance or decline — ends with the first-run
flag set.  The `Bool` of the result is the source's
`first_run_completed` flag. -/
def handle_first_run (cfg : Config) (st : StateMap) (entries : List UrlEntry)
    (shouldSubmit : Bool) (resp : Nat → Nat) :
    Except String (StateMap × Bool) :=
  let st1 := storeAll st entries
  if shouldSubmit then
    match (submit_in_batches cfg resp
        (entries.map (fun e => ⟨e.url, .new⟩))).2 with
    | .error e => .error e
    | .ok _ => .ok (st1, true)
  else .ok (st1, true)

/-- The leaf-sitemap loop of `fetch_sitemap_recursive` in
`src/sitemap.rs` on the accumulated state `(entries, seen_urls)`: an entry
whose URL was newly inserted into the seen set is appended to `entries`,
every other entry is skipped. -/
def addEntries (st : List UrlEntry × List String) (urls : List UrlEntry) :
    List UrlEntry × List String :=
  urls.foldl
    (fun st e => if e.url ∈ st.2 then st else (st.1 ++ [e], e.url :: st.2))
    st

/-- A fetched sitemap document, after the index-vs-leaf content sniffing of
`fetch_sitemap_recursive` (`content.contains("<sitemapindex")`): a sitemap
index lists child sitemap references, a regular sitemap lists URL
entries. -/
inductive SitemapDoc where
  | index (subs : List String) : SitemapDoc
  | leaf (urls : List UrlEntry) : SitemapDoc
deriving DecidableEq, Repr

mutual

/-- `fetch_sitemap_recursive` from `src/sitemap.rs` over a fetch oracle
`docs` (`docs ref = none` models a failed fetch): a call past the
`MAX_DEPTH = 10` ceiling skips the branch and returns `Ok` with the state
unchanged; a failed fetch fails the whole traversal naming the reference;
an index recurses into each child at `depth + 1`; a leaf adds its entries
through the shared seen set. -/
def fetch_sitemap_recursive (docs : String → Option SitemapDoc)
    (url : String) (st : List UrlEntry × List String) (depth : Nat) :
    Except String (List UrlEntry × List String) :=
  if _h : 10 < depth then .ok st
  else
    match docs url with
    | none => .error ("Failed to fetch sitemap: " ++ url)
    | some (.index subs) => fetchSitemapChildren docs subs st (depth + 1)
    | some (.leaf urls) => .ok (addEntries st urls)
termination_by (11 - depth, 0)

/-- The `for sub_url in sub_sitemaps` loop of `fetch_sitemap_recursive`:
children are traversed left to right, threading the state; an error from
any child propagates immediately (`?`). -/
def fetchSitemapChildren (docs : String → Option SitemapDoc)
    (subs : List String) (st : List UrlEntry × List String) (depth : Nat) :
    Except String (List UrlEntry × List String) :=
  match subs with
  | [] => .ok st
  | u :: us =>
    match fetch_sitemap_recursive docs u st depth with
    | .error e => .error e
    | .ok st2 => fetchSitemapChildren docs us st2 depth
termination_by (11 - depth, subs.length + 1)

end

mutual

/-- An acyclic sitemap tree: the special case of the reference graph in
which every reference resolves to a fixed document and no reference is an
ancestor of itself.  `idx` is a sitemap index, `leaf` a regular sitemap. -/
inductive SitemapTree where
  | leaf (urls : List UrlEntry) : SitemapTree
  | idx (children : SitemapTreeList) : SitemapTree

/-- The children of a sitemap index node. -/
inductive SitemapTreeList where
  | nil : SitemapTreeList
  | cons (t : SitemapTree) (ts : SitemapTreeList) : SitemapTreeList

end

mutual

/-- Depth of the deepest node of an acyclic sitemap tree, counting the
root as depth 0 — the recursion depth `fetch_sitemap_recursive` reaches on
that node. -/
def treeDepth : SitemapTree → Nat
  | .leaf _ => 0
  | .idx cs => treeDepthL cs

/-- Greatest depth among a list of child subtrees (each child one level
below its parent); 0 for no children. -/
def treeDepthL : SitemapTreeList → Nat
  | .nil => 0
  | .cons t ts => max (treeDepth t + 1) (treeDepthL ts)

end

mutual

/-- `fetch_sitemap_recursive` instantiated on an acyclic sitemap tree:
identical control flow (depth guard at entry, children at `depth + 1`,
leaf entries deduplicated through the single seen set), with each
reference resolved to its node's document, so no fetch can fail. -/
def fetchTreeRec (t : SitemapTree) (st : List UrlEntry × List String)
    (depth : Nat) : List UrlEntry × List String :=
  if 10 < depth then st
  else
    match t with
    | .leaf urls => addEntries st urls
    | .idx cs => fetchTreeChildren cs st (depth + 1)

/-- The children loop of `fetchTreeRec`, threading the state left to
right. -/
def fetchTreeChildren (cs : SitemapTreeList)
    (st : List UrlEntry × List String) (depth : Nat) :
    List UrlEntry × List String :=
  match cs with
  | .nil => st
  | .cons t ts => fetchTreeChildren ts (fetchTreeRec t st depth) depth

end

/-- `fetch_sitemap_urls` from `src/sitemap.rs` on an acyclic tree: start
with empty entry list and empty seen set at depth 0 and return the
collected entries. -/
def fetch_sitemap_urls (t : SitemapTree) : List UrlEntry :=
  (fetchTreeRec t ([], []) 0).1

mutual

/-- Specification-side: the leaf URL entries of the tree in discovery
(depth-first, left-to-right) order, duplicates included. -/
def leavesPre : SitemapTree → List UrlEntry
  | .leaf urls => urls
  | .idx cs => leavesL cs

/-- Concatenated leaf entries of a list of subtrees, in order. -/
def leavesL : SitemapTreeList → List UrlEntry
  | .nil => []
  | .cons t ts => leavesPre t ++ leavesL ts

end

/-- Specification-side (from the spec's words, for the refinement claim on
the traversal): keep each entry whose URL was not seen before, in first
discovery order. -/
def dedupFirst : List UrlEntry → List String → List UrlEntry
  | [], _ => []
  | e :: es, seen =>
    if e.url ∈ seen then dedupFirst es seen
    else e :: dedupFirst es (e.url :: seen)

instance {ε α : Type} [DecidableEq ε] [DecidableEq α] :
    DecidableEq (Except ε α) := fun x y =>
  match x, y with
  | .ok a, .ok b =>
    if h : a = b then isTrue (by rw [h]) else isFalse (by simp [h])
  | .error a, .error b =>
    if h : a = b then isTrue (by rw [h]) else isFalse (by simp [h])
  | .ok _, .error _ => isFalse (by simp)
  | .error _, .ok _ => isFalse (by simp)

/-- Example source configuration for the concrete corollaries below. -/
def cfgEx : Config := ⟨"key123", "example.com", "api.indexnow.org"⟩

/-- Status oracle answering 200 to the first request and 401 afterwards. -/
def respEx : Nat → Nat := fun i => if i = 0 then 200 else 401

/-- Status oracle answering 401 to every request. -/
def resp401 : Nat → Nat := fun _ => 401

/-- Status oracle answering 200 to every request. -/
def respOk : Nat → Nat := fun _ => 200

/-- 10,001 fetched entries sharing one URL and carrying no marker. -/
def entriesEx : List UrlEntry := List.replicate 10001 ⟨"u", none⟩

/-- The submission entry every element of `entriesEx` classifies to. -/
def subEx : SubmitEntry := ⟨"u", .new⟩

/-- A classified submission list of 10,001 entries. -/
def entriesC4 : List SubmitEntry := List.replicate 10001 ⟨"a", .new⟩

/-- A fetched sequence with a duplicated URL under two different
markers. -/
def entriesDup : List UrlEntry := [⟨"u", some "A"⟩, ⟨"u", some "B"⟩]

/-- A fetched sequence repeating one unmarked URL. -/
def entriesDup2 : List UrlEntry := [⟨"u", none⟩, ⟨"u", none⟩]

/-- Persisted state holding `a.com/1` with marker `2025-01-01`. -/
def stEx : StateMap :=
  fun u => if u = "a.com/1" then some (some "2025-01-01") else none

/-- A fetched entry for `a.com/1` carrying the fresh marker
`2025-02-01`. -/
def entryEx : UrlEntry := ⟨"a.com/1", some "2025-02-01"⟩

/-- A two-leaf sitemap tree in which URL `b` is reachable via both
branches. -/
def treeEx : SitemapTree :=
  .idx (.cons (.leaf [⟨"a", none⟩, ⟨"b", some "1"⟩])
    (.cons (.leaf [⟨"b", some "2"⟩, ⟨"c", none⟩]) .nil))

/-- A fully cyclic sitemap graph: every reference is an index listing
itself. -/
def docsLoop : String → Option SitemapDoc := fun v => some (.index [v])

/-- Two fetched entries with distinct URLs, one carrying a marker. -/
def entriesTwo : List UrlEntry := [⟨"x", some "1"⟩, ⟨"y", none⟩]

/-- A single unmarked fetched entry. -/
def entriesOne : List UrlEntry := [⟨"w", none⟩]

theorem chunksOf_nil (n : Nat) : chunksOf n ([] : List α) = [] := by
  cases n <;> simp [chunksOf]

theorem chunksOf_of_length_le {n : Nat} {l : List α} (h0 : 0 < l.length)
    (h : l.length ≤ n) : chunksOf n l = [l] := by
  match n, l with
  | _, [] => simp at h0
  | 0, x :: xs => simp at h
  | n + 1, x :: xs =>
    rw [chunksOf]
    rw [List.take_of_length_le h, List.drop_eq_nil_of_le h, chunksOf_nil]

theorem chunksOf_step {n : Nat} {l : List α} (hn : 0 < n)
    (h : n < l.length) :
    chunksOf n l = l.take n :: chunksOf n (l.drop n) := by
  match n, l with
  | _, [] => simp at h
  | 0, x :: xs => simp at hn
  | n + 1, x :: xs => rw [chunksOf]

theorem chunksOf_ne_nil {n : Nat} {l : List α} (hn : 0 < n) (h : l ≠ []) :
    chunksOf n l ≠ [] := by
  rcases Nat.lt_or_ge n l.length with hlt | hle
  · rw [chunksOf_step hn hlt]; simp
  · rw [chunksOf_of_length_le (by cases l <;> simp_all) hle]; simp

theorem chunksOf_length_pos {n : Nat} {l : List α} (hn : 0 < n)
    (h : l ≠ []) : 0 < (chunksOf n l).length :=
  List.length_pos.mpr (chunksOf_ne_nil hn h)

theorem chunksOf_join_aux {n : Nat} (hn : 0 < n) :
    ∀ (m : Nat) (l : List α), l.length ≤ m → (chunksOf n l).flatten = l := by
  intro m
  induction m with
  | zero =>
    intro l hl
    have hl0 : l = [] := by cases l <;> simp_all
    subst hl0
    simp [chunksOf_nil]
  | succ m ih =>
    intro l hl
    rcases Nat.lt_or_ge n l.length with hlt | hle
    · rw [chunksOf_step hn hlt, List.flatten_cons,
        ih (l.drop n) (by simp; omega)]
      exact List.take_append_drop n l
    · cases l with
      | nil => simp [chunksOf_nil]
      | cons x xs =>
        rw [chunksOf_of_length_le (by simp) hle, List.flatten_cons]
        simp

theorem chunksOf_join {n : Nat} (hn : 0 < n) (l : List α) :
    (chunksOf n l).flatten = l :=
  chunksOf_join_aux hn l.length l (Nat.le_refl _)

theorem chunksOf_mem_aux {n : Nat} (hn : 0 < n) :
    ∀ (m : Nat) (l c : List α), l.length ≤ m → c ∈ chunksOf n l →
      c.length ≤ n ∧ c ≠ [] := by
  intro m
  induction m with
  | zero =>
    intro l c hl hc
    have hl0 : l = [] := by cases l <;> simp_all
    subst hl0
    rw [chunksOf_nil] at hc
    simp at hc
  | succ m ih =>
    intro l c hl hc
    rcases Nat.lt_or_ge n l.length with hlt | hle
    · rw [chunksOf_step hn hlt] at hc
      rcases List.mem_cons.mp hc with hc | hc
      · subst hc
        refine ⟨by simp, ?_⟩
        have hlen : (l.take n).length = n := by simp; omega
        intro hnil
        rw [hnil] at hlen
        simp at hlen
        omega
      · exact ih (l.drop n) c (by simp; omega) hc
    · cases l with
      | nil => rw [chunksOf_nil] at hc; simp at hc
      | cons x xs =>
        rw [chunksOf_of_length_le (by simp) hle] at hc
        simp at hc
        subst hc
        exact ⟨hle, by simp⟩

theorem chunksOf_mem_length_le {n : Nat} {l c : List α} (hn : 0 < n)
    (hc : c ∈ chunksOf n l) : c.length ≤ n ∧ c ≠ [] :=
  chunksOf_mem_aux hn l.length l c (Nat.le_refl _) hc

theorem print_status_response_unlisted {s : Nat}
    (h : s ∉ ([200, 202, 400, 401, 403, 422, 429] : List Nat)) :
    print_status_response s = .ok () := by
  simp at h
  obtain ⟨h1, h2, h3, h4, h5, h6, h7⟩ := h
  unfold print_status_response
  split <;> simp_all

theorem submit_call_result_of_print_error {s : Nat} {msg : String}
    (h : print_status_response s = .error msg) :
    submit_call_result s = .error msg := by
  unfold submit_call_result
  rw [h]

theorem fatal_print_error {s : Nat} (h : s ∈ fatalStatuses) :
    ∃ msg, print_status_response s = .error msg := by
  simp [fatalStatuses] at h
  rcases h with h | h | h | h | h <;> subst h <;> exact ⟨_, rfl⟩

theorem runBatches_firstError (cfg : Config) (resp : Nat → Nat) :
    ∀ (k : Nat) (cs : List (List SubmitEntry)) (i : Nat), k < cs.length →
      (∀ j, j < k → submit_call_result (resp (i + j)) = .ok ()) →
      ∀ msg, submit_call_result (resp (i + k)) = .error msg →
      runBatches cfg resp cs i =
        ((cs.take (k + 1)).map (callOf cfg), .error msg) := by
  intro k
  induction k with
  | zero =>
    intro cs i hk hprev msg herr
    cases cs with
    | nil => simp at hk
    | cons c cs2 =>
      rw [Nat.add_zero] at herr
      simp [runBatches, herr]
  | succ k ih =>
    intro cs i hk hprev msg herr
    cases cs with
    | nil => simp at hk
    | cons c cs2 =>
      have h0 : submit_call_result (resp i) = .ok () := by
        have := hprev 0 (Nat.succ_pos k)
        rwa [Nat.add_zero] at this
      have hrec := ih cs2 (i + 1) (by simpa using hk)
        (fun j hj => by
          have := hprev (j + 1) (by omega)
          rwa [show i + (j + 1) = i + 1 + j by omega] at this)
        msg (by rwa [show i + 1 + k = i + (k + 1) by omega])
      simp [runBatches, h0, hrec]

/-- C2 counterexample: status 500 is not in the status table, yet the
submission call does not return success — `submit_single`/`submit_bulk`
fail with "Submission failed with status 500", so the run does not
continue. -/
theorem c2_unexpected_counterexample :
    (500 : Nat) ∉ ([200, 202, 400, 401, 403, 422, 429] : List Nat) ∧
    print_status_response 500 = .ok () ∧
    submit_call_result 500 ≠ .ok () := by
  refine ⟨by decide, rfl, by decide⟩

/-- C2 (amended): for a status outside the table, `print_status_response`
takes the catch-all "unexpected" arm and returns `Ok`; the submission call
then returns success (run continues) iff the status is a 2xx success
code, and otherwise fails with "Submission failed with status N",
aborting the remaining batches. -/
theorem c2_unexpected_status (s : Nat)
    (h : s ∉ ([200, 202, 400, 401, 403, 422, 429] : List Nat)) :
    print_status_response s = .ok () ∧
    (200 ≤ s ∧ s ≤ 299 → submit_call_result s = .ok ()) ∧
    (¬(200 ≤ s ∧ s ≤ 299) →
      submit_call_result s =
        .error ("Submission failed with status " ++ toString s)) := by
  have hprint := print_status_response_unlisted h
  have h202 : s ≠ 202 := by simp at h; tauto
  refine ⟨hprint, ?_, ?_⟩
  · intro hs
    unfold submit_call_result
    rw [hprint]
    simp [hs]
  · intro hs
    unfold submit_call_result
    rw [hprint]
    rw [if_neg (by tauto)]

/-- C2 witness: status 500 is unexpected and non-2xx, so the call fails
with the generic status error. -/
theorem c2_unexpected_status_witness :
    submit_call_result 500 =
      .error ("Submission failed with status " ++ toString (500 : Nat)) :=
  (c2_unexpected_status 500 (by decide)).2.2 (by decide)

/-- C3: in a multi-batch submission, if every batch before batch `k`
succeeded and batch `k` receives a fatal status (400, 401, 403, 422 or
429), the requests actually issued stop at batch `k` — no subsequent
batch is attempted — and the typed error of `print_status_response` is
surfaced; with 401 the surfaced error names "Unauthorized". -/
theorem c3_fatal_aborts_remaining (cfg : Config) (resp : Nat → Nat)
    (entries : List SubmitEntry) (k : Nat)
    (hk : k < (chunksOf MAX_BATCH_SIZE entries).length)
    (hprev : ∀ j, j < k → submit_call_result (resp j) = .ok ())
    (hfatal : resp k ∈ fatalStatuses) :
    (∃ msg, print_status_response (resp k) = .error msg ∧
      submit_in_batches cfg resp entries =
        (((chunksOf MAX_BATCH_SIZE entries).take (k + 1)).map (callOf cfg),
          .error msg)) ∧
    (resp k = 401 →
      (submit_in_batches cfg resp entries).2 = .error "Unauthorized") := by
  obtain ⟨msg, hmsg⟩ := fatal_print_error hfatal
  have hcall := submit_call_result_of_print_error hmsg
  have hrun := runBatches_firstError cfg resp k
    (chunksOf MAX_BATCH_SIZE entries) 0 hk
    (fun j hj => by simpa using hprev j hj)
    msg (by simpa using hcall)
  refine ⟨⟨msg, hmsg, ?_⟩, ?_⟩
  · unfold submit_in_batches
    exact hrun
  · intro h401
    unfold submit_in_batches
    rw [hrun]
    rw [h401] at hmsg
    have : msg = "Unauthorized" := by
      have : print_status_response 401 = .error "Unauthorized" := rfl
      rw [this] at hmsg
      exact (Except.error.inj hmsg.symm)
    rw [this]

/-- C3 witness: 10,001 entries make two batches; with every response 401,
batch 1 of 2 is fatal, so only the first request is issued and the error
names "Unauthorized". -/
theorem c3_fatal_aborts_remaining_witness :
    (submit_in_batches cfgEx resp401 entriesC4).2 = .error "Unauthorized" :=
  (c3_fatal_aborts_remaining cfgEx resp401 entriesC4 0
    (chunksOf_length_pos (by decide) (by
      have h : entriesC4.length = 10001 := by
        unfold entriesC4
        simp only [List.length_replicate]
      intro hnil
      rw [hnil] at h
      simp at h))
    (fun j hj => absurd hj (Nat.not_lt_zero j))
    (by decide)).2 rfl

/-- C4: the submission engine partitions the classified list into
consecutive chunks of at most `MAX_BATCH_SIZE = 10,000` entries whose
concatenation is the original list; a chunk of exactly one entry becomes
a single-URL GET carrying the URL and the key, a larger chunk one bulk
POST carrying host, key and the URL list; a 10,001-entry list makes
exactly 2 requests, first the 10,000-entry bulk call, then the 1-entry
single call. -/
theorem c4_batch_shapes (cfg : Config) (resp : Nat → Nat)
    (entries : List SubmitEntry) (hlen : entries.length = 10001)
    (h0 : submit_call_result (resp 0) = .ok ()) :
    (chunksOf MAX_BATCH_SIZE entries).flatten = entries ∧
    (∀ c ∈ chunksOf MAX_BATCH_SIZE entries, c.length ≤ MAX_BATCH_SIZE) ∧
    chunksOf MAX_BATCH_SIZE entries =
      [entries.take 10000, entries.drop 10000] ∧
    (entries.take 10000).length = 10000 ∧
    (entries.drop 10000).length = 1 ∧
    (submit_in_batches cfg resp entries).1 =
      [callOf cfg (entries.take 10000), callOf cfg (entries.drop 10000)] ∧
    callOf cfg (entries.take 10000) =
      .bulk cfg.searchengine cfg.host cfg.api_key
        ((entries.take 10000).map (fun e => e.url)) ∧
    (∀ e, entries.drop 10000 = [e] →
      callOf cfg (entries.drop 10000) =
        .single cfg.searchengine e.url cfg.api_key) := by
  have htake : (entries.take 10000).length = 10000 := by simp [hlen]
  have hdrop : (entries.drop 10000).length = 1 := by simp [hlen]
  have hchunks : chunksOf MAX_BATCH_SIZE entries =
      [entries.take 10000, entries.drop 10000] := by
    unfold MAX_BATCH_SIZE
    rw [chunksOf_step (by decide) (by rw [hlen]; decide),
      chunksOf_of_length_le (by rw [hdrop]; decide) (by rw [hdrop]; decide)]
  refine ⟨chunksOf_join (by decide) entries,
    fun c hc => (chunksOf_mem_length_le (by decide) hc).1,
    hchunks, htake, hdrop, ?_, ?_, ?_⟩
  · unfold submit_in_batches
    rw [hchunks]
    cases hr : submit_call_result (resp 1) <;>
      simp [runBatches, h0, hr]
  · unfold callOf
    rw [if_neg (by rw [htake]; decide)]
  · intro e he
    unfold callOf
    rw [he]
    simp

/-- C4 witness: a concrete classified list of 10,001 entries with
successful responses issues the two expected requests. -/
theorem c4_batch_shapes_witness :
    (submit_in_batches cfgEx respOk entriesC4).1 =
      [callOf cfgEx (entriesC4.take 10000),
        callOf cfgEx (entriesC4.drop 10000)] :=
  (c4_batch_shapes cfgEx respOk entriesC4
    (by unfold entriesC4; simp only [List.length_replicate]) rfl).2.2.2.2.2.1

theorem detect_replicate_new (n : Nat) (u : String) :
    detect emptyState (List.replicate n ⟨u, none⟩) =
      List.replicate n ⟨u, .new⟩ := by
  induction n with
  | zero => rfl
  | succ n ih =>
    rw [List.replicate_succ, List.replicate_succ]
    have hc : classifyEntry emptyState ⟨u, none⟩ = some ⟨u, .new⟩ := rfl
    show List.filterMap _ (_ :: _) = _
    simp only [List.filterMap_cons, hc]
    exact congrArg (List.cons _) ih

/-- C1 counterexample: 10,001 all-new entries are submitted in two
batches; batch 1 succeeds with 200 and batch 2 fails with 401, yet the
final persisted state holds nothing for the URL carried by every entry of
the successful batch 1 — persistence did not happen after batch 1's
success. -/
theorem c1_counterexample :
    chunksOf MAX_BATCH_SIZE (detect emptyState entriesEx) =
      [List.replicate 10000 subEx, [subEx]] ∧
    submit_call_result (respEx 0) = .ok () ∧
    (submit_in_batches cfgEx respEx (detect emptyState entriesEx)).2 =
      .error "Unauthorized" ∧
    (handle_subsequent_run cfgEx emptyState entriesEx true respEx).1
      subEx.url = none := by
  have hdet : detect emptyState entriesEx = List.replicate 10001 subEx := by
    unfold entriesEx subEx
    exact detect_replicate_new 10001 "u"
  have h1 : List.take 10000 (List.replicate 10001 subEx) =
      List.replicate 10000 subEx := by
    rw [List.take_replicate]
    norm_num
  have h2 : List.drop 10000 (List.replicate 10001 subEx) = [subEx] := by
    rw [List.drop_replicate]
    norm_num
  have hchunks : chunksOf MAX_BATCH_SIZE (detect emptyState entriesEx) =
      [List.replicate 10000 subEx, [subEx]] := by
    rw [hdet]
    unfold MAX_BATCH_SIZE
    rw [chunksOf_step (by decide)
        (by simp only [List.length_replicate]; decide),
      h1, h2, chunksOf_of_length_le (by decide) (by decide)]
  have hr0 : submit_call_result (respEx 0) = .ok () := rfl
  have hr1 : submit_call_result (respEx 1) = .error "Unauthorized" := rfl
  have hsub : (submit_in_batches cfgEx respEx
      (detect emptyState entriesEx)).2 = .error "Unauthorized" := by
    unfold submit_in_batches
    rw [hchunks]
    rfl
  refine ⟨hchunks, hr0, hsub, ?_⟩
  have hne : (detect emptyState entriesEx).isEmpty = false := by
    rw [hdet, List.replicate_succ, List.isEmpty_cons]
  simp only [handle_subsequent_run, hne, Bool.false_eq_true, if_false,
    if_true, hsub]
  rfl

/-- C1 (amended): persistence happens only after the entire submission
call: if any batch fails, the typed error is surfaced and the persisted
state is unchanged — the entries of earlier, successful batches included —
while after a fully successful, confirmed, non-empty submission every
submitted entry is persisted by the update loop. -/
theorem c1_persistence (cfg : Config) (st : StateMap)
    (entries : List UrlEntry) (confirm : Bool) (resp : Nat → Nat) :
    (∀ msg, (handle_subsequent_run cfg st entries confirm resp).2 =
        .error msg →
      (handle_subsequent_run cfg st entries confirm resp).1 = st) ∧
    (confirm = true → (detect st entries).isEmpty = false →
      (submit_in_batches cfg resp (detect st entries)).2 = .ok () →
      (handle_subsequent_run cfg st entries confirm resp).1 =
        updateAfterSubmit st entries (detect st entries)) := by
  constructor
  · intro msg hmsg
    unfold handle_subsequent_run at hmsg ⊢
    by_cases hempty : (detect st entries).isEmpty <;>
      cases confirm <;>
      cases hs : (submit_in_batches cfg resp (detect st entries)).2 <;>
      simp_all
  · intro hconfirm hempty hok
    subst hconfirm
    unfold handle_subsequent_run
    simp only [hempty, Bool.false_eq_true, if_false, if_true, hok]

/-- C1 amended witness: one new entry, response 401 — the run errors and
the persisted state is unchanged. -/
theorem c1_persistence_witness :
    (handle_subsequent_run cfgEx emptyState entriesOne true resp401).1 =
      emptyState :=
  (c1_persistence cfgEx emptyState entriesOne true resp401).1
    "Unauthorized" (by
      have hchunks : chunksOf MAX_BATCH_SIZE (detect emptyState entriesOne) =
          [[⟨"w", .new⟩]] :=
        chunksOf_of_length_le (by decide) (by decide)
      have hsub : (submit_in_batches cfgEx resp401
          (detect emptyState entriesOne)).2 = .error "Unauthorized" := by
        unfold submit_in_batches
        rw [hchunks]
        rfl
      have hne : (detect emptyState entriesOne).isEmpty = false := rfl
      simp only [handle_subsequent_run, hne, Bool.false_eq_true, if_false,
        if_true, hsub])

theorem classifyEntry_absent {st : StateMap} {e : UrlEntry}
    (h : st e.url = none) : classifyEntry st e = some ⟨e.url, .new⟩ := by
  unfold classifyEntry
  rw [h]

theorem classifyEntry_congr {st1 st2 : StateMap} (e : UrlEntry)
    (h : st1 e.url = st2 e.url) :
    classifyEntry st1 e = classifyEntry st2 e := by
  unfold classifyEntry
  rw [h]

theorem classifyEntry_self {st : StateMap} {e : UrlEntry}
    (h : st e.url = some e.date) : classifyEntry st e = none := by
  unfold classifyEntry
  rw [h]
  cases e.date <;> simp

theorem classifyEntry_cases (st : StateMap) (e : UrlEntry) :
    (st e.url = none ∧ classifyEntry st e = some ⟨e.url, .new⟩) ∨
    (∃ p d, st e.url = some p ∧ e.date = some d ∧
      (p = none ∨ ∃ old, p = some old ∧ d ≠ old) ∧
      classifyEntry st e = some ⟨e.url, .modified d⟩) ∨
    (st e.url ≠ none ∧ classifyEntry st e = none ∧
      (e.date = none ∨ st e.url = some e.date)) := by
  cases hst : st e.url with
  | none => exact Or.inl ⟨rfl, classifyEntry_absent hst⟩
  | some p =>
    cases hd : e.date with
    | none =>
      refine Or.inr (Or.inr ⟨by simp, ?_, Or.inl rfl⟩)
      unfold classifyEntry
      rw [hst, hd]
    | some d =>
      cases p with
      | none =>
        refine Or.inr (Or.inl ⟨none, d, rfl, rfl, Or.inl rfl, ?_⟩)
        simp [classifyEntry, hst, hd]
      | some old =>
        by_cases hde : d = old
        · subst hde
          exact Or.inr (Or.inr ⟨by simp,
            classifyEntry_self (by rw [hst, hd]), Or.inr rfl⟩)
        · refine Or.inr (Or.inl ⟨some old, d, rfl, rfl,
            Or.inr ⟨old, rfl, hde⟩, ?_⟩)
          simp [classifyEntry, hst, hd, hde]

/-- C5: on a subsequent run, an entry whose URL is absent from the
persisted mapping is classified `New`; an entry whose URL is present is
classified `Modified` with the fresh marker iff it carries a fresh marker
and either no persisted marker exists or the fresh marker differs from
the persisted one (compared as strings); an entry with no fresh marker is
never `Modified`; every other entry is dropped. -/
theorem c5_subsequent_classification (st : StateMap) (e : UrlEntry) :
    (st e.url = none → classifyEntry st e = some ⟨e.url, .new⟩) ∧
    (∀ p, st e.url = some p →
      ((∀ d, classifyEntry st e = some ⟨e.url, .modified d⟩ ↔
          (e.date = some d ∧ (p = none ∨ ∃ old, p = some old ∧ d ≠ old))) ∧
       (e.date = none → classifyEntry st e = none) ∧
       (classifyEntry st e = none ↔
          ¬∃ d, e.date = some d ∧
            (p = none ∨ ∃ old, p = some old ∧ d ≠ old)))) := by
  refine ⟨fun h => classifyEntry_absent h, fun p hp => ?_⟩
  cases hd : e.date with
  | none =>
    have hcl : classifyEntry st e = none := by
      unfold classifyEntry
      rw [hp, hd]
    exact ⟨fun d => by rw [hcl]; simp, fun _ => hcl, by rw [hcl]; simp⟩
  | some d0 =>
    cases p with
    | none =>
      have hcl : classifyEntry st e = some ⟨e.url, .modified d0⟩ := by
        simp [classifyEntry, hp, hd]
      exact ⟨fun d => by rw [hcl]; simp, fun hc => Option.noConfusion hc,
        by rw [hcl]; simp⟩
    | some old =>
      by_cases hde : d0 = old
      · subst hde
        have hcl : classifyEntry st e = none :=
          classifyEntry_self (by rw [hp, hd])
        refine ⟨fun d => ?_, fun hc => Option.noConfusion hc,
          by rw [hcl]; simp⟩
        rw [hcl]
        simp
        exact fun h => h.symm
      · have hcl : classifyEntry st e = some ⟨e.url, .modified d0⟩ := by
          simp [classifyEntry, hp, hd, hde]
        refine ⟨fun d => ?_, fun hc => Option.noConfusion hc, ?_⟩
        · rw [hcl]
          simp
          exact fun h1 h2 => hde (h1.trans h2)
        · rw [hcl]
          simp
          exact hde

/-- C5 witness: spec Example 2 — persisted marker `2025-01-01` for
`a.com/1`, fetched marker `2025-02-01`, classified `Modified` with the
fresh marker. -/
theorem c5_subsequent_classification_witness :
    classifyEntry stEx entryEx =
      some ⟨"a.com/1", .modified "2025-02-01"⟩ :=
  (((c5_subsequent_classification stEx entryEx).2 (some "2025-01-01")
      (by decide)).1 "2025-02-01").mpr
    ⟨rfl, Or.inr ⟨"2025-01-01", rfl, by decide⟩⟩

theorem classifyEntry_url {st : StateMap} {e : UrlEntry} {se : SubmitEntry}
    (h : classifyEntry st e = some se) : se.url = e.url := by
  rcases classifyEntry_cases st e with ⟨_, hcl⟩ | ⟨p, d, _, _, _, hcl⟩ |
      ⟨_, hcl, _⟩ <;> rw [hcl] at h
  · rw [← Option.some.inj h]
  · rw [← Option.some.inj h]
  · cases h

theorem classifyEntry_new_inv {st : StateMap} {e : UrlEntry} {u : String}
    (h : classifyEntry st e = some ⟨u, .new⟩) : st e.url = none := by
  rcases classifyEntry_cases st e with ⟨hst, hcl⟩ | ⟨p, d, _, _, _, hcl⟩ |
      ⟨_, hcl, _⟩ <;> rw [hcl] at h
  · exact hst
  · simp at h
  · cases h

theorem classifyEntry_modified_date {st : StateMap} {e : UrlEntry}
    {u d : String} (h : classifyEntry st e = some ⟨u, .modified d⟩) :
    e.date = some d := by
  rcases classifyEntry_cases st e with ⟨_, hcl⟩ | ⟨p, d2, _, hd, _, hcl⟩ |
      ⟨_, hcl, _⟩ <;> rw [hcl] at h
  · simp at h
  · simp at h
    rw [hd, h.2]
  · cases h

theorem mem_detect {st : StateMap} {l : List UrlEntry} {se : SubmitEntry} :
    se ∈ detect st l ↔ ∃ e ∈ l, classifyEntry st e = some se := by
  simp [detect, List.mem_filterMap]

theorem detect_urls_sublist (st : StateMap) (l : List UrlEntry) :
    ((detect st l).map (fun se => se.url)).Sublist
      (l.map (fun e => e.url)) := by
  induction l with
  | nil => simp [detect]
  | cons x xs ih =>
    cases hc : classifyEntry st x with
    | none =>
      refine List.Sublist.trans ?_ (List.sublist_cons_self _ _)
      simpa [detect, List.filterMap_cons, hc] using ih
    | some se =>
      have hu : se.url = x.url := classifyEntry_url hc
      simp only [detect, List.filterMap_cons, hc, List.map_cons, hu] at ih ⊢
      exact ih.cons₂ _

theorem detect_urls_nodup {st : StateMap} {l : List UrlEntry}
    (h : (l.map (fun e => e.url)).Nodup) :
    ((detect st l).map (fun se => se.url)).Nodup :=
  (detect_urls_sublist st l).nodup h

theorem find_unique {l : List UrlEntry}
    (hnd : (l.map (fun e => e.url)).Nodup) {e : UrlEntry} (he : e ∈ l) :
    l.find? (fun x => x.url == e.url) = some e := by
  induction l with
  | nil => cases he
  | cons x xs ih =>
    rw [List.map_cons, List.nodup_cons] at hnd
    obtain ⟨hx, hnd2⟩ := hnd
    rcases List.mem_cons.mp he with rfl | he2
    · simp [List.find?_cons]
    · have hxe : (x.url == e.url) = false := by
        rw [beq_eq_false_iff_ne]
        intro hequ
        exact hx (hequ ▸ List.mem_map.mpr ⟨e, he2, rfl⟩)
      rw [List.find?_cons, hxe]
      exact ih hnd2 he2

theorem storeAll_untouched {l : List UrlEntry} {u : String}
    (h : ∀ e ∈ l, e.url ≠ u) :
    ∀ st : StateMap, storeAll st l u = st u := by
  induction l with
  | nil => intro st; rfl
  | cons x xs ih =>
    intro st
    show storeAll (st.insert x.url x.date) xs u = st u
    rw [ih (fun e he => h e (List.mem_cons_of_mem _ he))]
    show (if u = x.url then some x.date else st u) = st u
    rw [if_neg (fun hu => h x (List.mem_cons_self _ _) hu.symm)]

theorem storeAll_lookup {l : List UrlEntry}
    (hnd : (l.map (fun e => e.url)).Nodup) :
    ∀ st : StateMap, ∀ e ∈ l, storeAll st l e.url = some e.date := by
  induction l with
  | nil => intro st e he; cases he
  | cons x xs ih =>
    intro st e he
    rw [List.map_cons, List.nodup_cons] at hnd
    obtain ⟨hx, hnd2⟩ := hnd
    rcases List.mem_cons.mp he with rfl | he2
    · show storeAll (st.insert e.url e.date) xs e.url = some e.date
      rw [storeAll_untouched (fun e2 he2 hequ =>
        hx (by rw [← hequ]; exact List.mem_map.mpr ⟨e2, he2, rfl⟩))]
      show (if e.url = e.url then some e.date else st e.url) = some e.date
      rw [if_pos rfl]
    · exact ih hnd2 (st.insert x.url x.date) e he2

theorem storeAll_eq_none {l : List UrlEntry} {u : String} :
    ∀ st : StateMap,
      (storeAll st l u = none ↔ st u = none ∧ ∀ e ∈ l, e.url ≠ u) := by
  induction l with
  | nil => intro st; simp [storeAll]
  | cons x xs ih =>
    intro st
    show storeAll (st.insert x.url x.date) xs u = none ↔ _
    rw [ih]
    constructor
    · rintro ⟨hins, hxs⟩
      by_cases hu : u = x.url
      · exfalso
        rw [show st.insert x.url x.date u = some x.date from by
          show (if u = x.url then some x.date else st u) = some x.date
          rw [if_pos hu]] at hins
        cases hins
      · rw [show st.insert x.url x.date u = st u from by
          show (if u = x.url then some x.date else st u) = st u
          rw [if_neg hu]] at hins
        refine ⟨hins, fun e he => ?_⟩
        rcases List.mem_cons.mp he with rfl | h2
        · exact fun hh => hu hh.symm
        · exact hxs e h2
    · rintro ⟨hnone, hall⟩
      have hu : u ≠ x.url :=
        fun h => hall x (List.mem_cons_self _ _) h.symm
      refine ⟨?_, fun e he => hall e (List.mem_cons_of_mem _ he)⟩
      rw [show st.insert x.url x.date u = st u from by
        show (if u = x.url then some x.date else st u) = st u
        rw [if_neg hu]]
      exact hnone

theorem updateAfterSubmit_untouched {ts : List SubmitEntry} {u : String}
    (h : ∀ se ∈ ts, se.url ≠ u) :
    ∀ (st : StateMap) (entries : List UrlEntry),
      updateAfterSubmit st entries ts u = st u := by
  induction ts with
  | nil => intro st entries; rfl
  | cons x xs ih =>
    intro st entries
    show updateAfterSubmit (st.insert x.url (resolveDate entries x))
      entries xs u = st u
    rw [ih (fun se hse => h se (List.mem_cons_of_mem _ hse))]
    show (if u = x.url then _ else st u) = st u
    rw [if_neg (fun hu => h x (List.mem_cons_self _ _) hu.symm)]

theorem updateAfterSubmit_lookup {ts : List SubmitEntry}
    (hnd : (ts.map (fun se => se.url)).Nodup) :
    ∀ (st : StateMap) (entries : List UrlEntry), ∀ se ∈ ts,
      updateAfterSubmit st entries ts se.url =
        some (resolveDate entries se) := by
  induction ts with
  | nil => intro st entries se hse; cases hse
  | cons x xs ih =>
    intro st entries se hse
    rw [List.map_cons, List.nodup_cons] at hnd
    obtain ⟨hx, hnd2⟩ := hnd
    rcases List.mem_cons.mp hse with rfl | hse2
    · show updateAfterSubmit (st.insert se.url (resolveDate entries se))
        entries xs se.url = some (resolveDate entries se)
      rw [updateAfterSubmit_untouched (fun se2 hse2 hequ =>
        hx (by rw [← hequ]; exact List.mem_map.mpr ⟨se2, hse2, rfl⟩))]
      show (if se.url = se.url then some (resolveDate entries se) else _) = _
      rw [if_pos rfl]
    · exact ih hnd2 (st.insert x.url (resolveDate entries x)) entries se hse2

/-- C6 counterexample: a fetched sequence repeating one URL under two
markers completes a first run (state stored, flag set), yet re-running
the detector on the identical sequence against the resulting persisted
state classifies the first occurrence as `Modified` — the submission set
is not empty. -/
theorem c6_counterexample :
    handle_first_run cfgEx emptyState entriesDup false respOk =
      .ok (storeAll emptyState entriesDup, true) ∧
    detect (storeAll emptyState entriesDup) entriesDup ≠ [] := by
  exact ⟨rfl, by decide⟩

/-- C6 (amended): for fetched sequences without duplicate URLs,
re-running the Change Detector against the state left by a completed
prior run — the first-run store, or the post-submission update of a
subsequent run — yields an empty submission set, and a subsequent run on
that state returns immediately with the state unchanged (no submission
call is reached). -/
theorem c6_idempotence (st : StateMap) (entries : List UrlEntry)
    (hnd : (entries.map (fun e => e.url)).Nodup) :
    detect (storeAll st entries) entries = [] ∧
    detect (updateAfterSubmit st entries (detect st entries)) entries = [] ∧
    (∀ (cfg : Config) (confirm : Bool) (resp : Nat → Nat),
      handle_subsequent_run cfg (storeAll st entries) entries confirm resp =
        (storeAll st entries, .ok ())) := by
  have h1 : detect (storeAll st entries) entries = [] := by
    rw [detect, List.filterMap_eq_nil_iff]
    intro e he
    exact classifyEntry_self (storeAll_lookup hnd st e he)
  refine ⟨h1, ?_, ?_⟩
  · rw [detect, List.filterMap_eq_nil_iff]
    intro e he
    cases hc : classifyEntry st e with
    | none =>
      have huntouched :
          updateAfterSubmit st entries (detect st entries) e.url =
            st e.url := by
        apply updateAfterSubmit_untouched
        intro se hse hur
        obtain ⟨e2, he2, hce2⟩ := mem_detect.mp hse
        have hu2 : e2.url = e.url := by
          rw [← classifyEntry_url hce2, hur]
        have he22 : e2 = e :=
          List.inj_on_of_nodup_map hnd he2 he hu2
        rw [he22] at hce2
        rw [hc] at hce2
        cases hce2
      rw [classifyEntry_congr e huntouched, hc]
    | some se =>
      have hse : se ∈ detect st entries := mem_detect.mpr ⟨e, he, hc⟩
      have hnd2 := @detect_urls_nodup st entries hnd
      have hlook := updateAfterSubmit_lookup hnd2 st entries se hse
      have hu : se.url = e.url := classifyEntry_url hc
      have hres : resolveDate entries se = e.date := by
        rcases hser : se.reason with _ | d
        · have hfind : entries.find? (fun x => x.url == se.url) = some e := by
            simp only [hu]
            exact find_unique hnd he
          unfold resolveDate
          rw [hser, hfind]
          rfl
        · have hsee : se = ⟨e.url, .modified d⟩ := by
            cases se
            simp at hu hser
            rw [hu, hser]
          rw [hsee] at hc
          have := classifyEntry_modified_date hc
          unfold resolveDate
          rw [hser, this]
      rw [hu, hres] at hlook
      exact classifyEntry_self hlook
  · intro cfg confirm resp
    unfold handle_subsequent_run
    rw [h1]
    rfl

/-- C6 witness: two distinct-URL entries stored by a first run are all
dropped on the identical re-run. -/
theorem c6_idempotence_witness :
    detect (storeAll emptyState entriesTwo) entriesTwo = [] ∧
    detect (updateAfterSubmit emptyState entriesTwo
      (detect emptyState entriesTwo)) entriesTwo = [] :=
  ⟨(c6_idempotence emptyState entriesTwo (by decide)).1,
   (c6_idempotence emptyState entriesTwo (by decide)).2.1⟩

/-- C9 counterexample: a fetched sequence repeating one unknown URL
yields a submission set with a duplicated URL. -/
theorem c9_counterexample :
    ¬ ((detect emptyState entriesDup2).map (fun se => se.url)).Nodup := by
  decide

/-- C9 (amended): for every persisted state the submission set draws its
URLs from the fetched entries (each submitted entry is the
classification of some fetched entry), and classification is total and
exclusive — every fetched entry is classified `New`, `Modified`, or
dropped, exactly one of the three; when the fetched URLs are pairwise
distinct (as sitemap traversal guarantees) the submission set has no
duplicate URL. -/
theorem c9_invariants (st : StateMap) (entries : List UrlEntry) :
    (∀ se ∈ detect st entries, se.url ∈ entries.map (fun e => e.url)) ∧
    (∀ se ∈ detect st entries,
      ∃ e ∈ entries, classifyEntry st e = some se) ∧
    ((entries.map (fun e => e.url)).Nodup →
      ((detect st entries).map (fun se => se.url)).Nodup) ∧
    (∀ e : UrlEntry,
      (classifyEntry st e = some ⟨e.url, .new⟩ ∧ st e.url = none) ∨
      (∃ d, classifyEntry st e = some ⟨e.url, .modified d⟩ ∧
        e.date = some d ∧ st e.url ≠ none) ∨
      (classifyEntry st e = none ∧ st e.url ≠ none)) := by
  refine ⟨?_, fun se hse => mem_detect.mp hse, fun h => detect_urls_nodup h,
    ?_⟩
  · intro se hse
    obtain ⟨e, he, hce⟩ := mem_detect.mp hse
    rw [classifyEntry_url hce]
    exact List.mem_map.mpr ⟨e, he, rfl⟩
  · intro e
    rcases classifyEntry_cases st e with ⟨hst, hcl⟩ |
        ⟨p, d, hp, hd, _, hcl⟩ | ⟨hst, hcl, _⟩
    · exact Or.inl ⟨hcl, hst⟩
    · exact Or.inr (Or.inl ⟨d, hcl, hd, by rw [hp]; simp⟩)
    · exact Or.inr (Or.inr ⟨hcl, hst⟩)

/-- C9 witness: with distinct fetched URLs the submission set has no
duplicate URL. -/
theorem c9_invariants_witness :
    ((detect emptyState entriesTwo).map (fun se => se.url)).Nodup :=
  (c9_invariants emptyState entriesTwo).2.2.1 (by decide)

/-- C10: whenever a first run returns without error — the user's
acceptance decision included, so also on decline — the resulting state is
the store of every fetched entry, the first-run flag is set; every
fetched URL has a record, under distinct fetched URLs that record holds
exactly the fetched marker and re-classifying the same entry drops it;
and no URL with a record is ever classified `New` afterwards, so a
declined URL is re-submitted only through the `Modified` rule. -/
theorem c10_first_run_records (cfg : Config) (st : StateMap)
    (entries : List UrlEntry) (shouldSubmit : Bool) (resp : Nat → Nat)
    (st2 : StateMap) (flag : Bool)
    (h : handle_first_run cfg st entries shouldSubmit resp =
      .ok (st2, flag)) :
    flag = true ∧
    st2 = storeAll st entries ∧
    (∀ e ∈ entries, st2 e.url ≠ none) ∧
    ((entries.map (fun e => e.url)).Nodup →
      ∀ e ∈ entries, st2 e.url = some e.date ∧ classifyEntry st2 e = none) ∧
    (∀ e : UrlEntry, st2 e.url ≠ none →
      classifyEntry st2 e ≠ some ⟨e.url, .new⟩) := by
  have hinv : st2 = storeAll st entries ∧ flag = true := by
    unfold handle_first_run at h
    cases shouldSubmit with
    | false =>
      simp at h
      exact ⟨h.1.symm, h.2⟩
    | true =>
      cases hs : (submit_in_batches cfg resp
          (entries.map (fun e => ⟨e.url, .new⟩))).2 with
      | error msg => rw [if_pos rfl, hs] at h; cases h
      | ok _ =>
        rw [if_pos rfl, hs] at h
        simp at h
        exact ⟨h.1.symm, h.2⟩
  obtain ⟨hst2, hflag⟩ := hinv
  subst hst2
  refine ⟨hflag, rfl, ?_, ?_, ?_⟩
  · intro e he hnone
    rw [storeAll_eq_none st] at hnone
    exact hnone.2 e he rfl
  · intro hnd e he
    have hl := storeAll_lookup hnd st e he
    exact ⟨hl, classifyEntry_self hl⟩
  · intro e hne hcl
    exact hne (classifyEntry_new_inv hcl)

/-- C10 witness: a declined first run over two entries records both and
the marked entry is dropped on re-classification. -/
theorem c10_first_run_records_witness :
    classifyEntry (storeAll emptyState entriesTwo) ⟨"x", some "1"⟩ =
      none :=
  (((c10_first_run_records cfgEx emptyState entriesTwo false respOk
      (storeAll emptyState entriesTwo) true rfl).2.2.2.1 (by decide))
    ⟨"x", some "1"⟩ (by decide)).2

theorem fetch_sitemap_recursive_depth_guard
    (docs : String → Option SitemapDoc) (url : String)
    (st : List UrlEntry × List String) (depth : Nat) (h : 10 < depth) :
    fetch_sitemap_recursive docs url st depth = .ok st := by
  unfold fetch_sitemap_recursive
  rw [dif_pos h]

theorem fetchLoop_aux :
    ∀ (n depth : Nat), 11 ≤ depth + n →
      ∀ (url : String) (st : List UrlEntry × List String),
        fetch_sitemap_recursive docsLoop url st depth = .ok st := by
  intro n
  induction n with
  | zero =>
    intro depth h url st
    exact fetch_sitemap_recursive_depth_guard _ _ _ _ (by omega)
  | succ n ih =>
    intro depth h url st
    by_cases hd : 10 < depth
    · exact fetch_sitemap_recursive_depth_guard _ _ _ _ hd
    · unfold fetch_sitemap_recursive
      rw [dif_neg hd]
      show fetchSitemapChildren docsLoop [url] st (depth + 1) = .ok st
      unfold fetchSitemapChildren
      rw [ih (depth + 1) (by omega) url st]
      show fetchSitemapChildren docsLoop [] st (depth + 1) = .ok st
      unfold fetchSitemapChildren
      rfl

/-- C8: the traversal never proceeds past the hard depth ceiling of 10 —
a call beyond it skips the branch, leaving the state unchanged, and
returns success — and on a fully cyclic, self-referencing sitemap graph
the traversal terminates with success from any starting reference and
depth. -/
theorem c8_depth_ceiling_termination :
    (∀ (docs : String → Option SitemapDoc) (url : String)
        (st : List UrlEntry × List String) (depth : Nat), 10 < depth →
      fetch_sitemap_recursive docs url st depth = .ok st) ∧
    (∀ (url : String) (st : List UrlEntry × List String) (depth : Nat),
      fetch_sitemap_recursive docsLoop url st depth = .ok st) :=
  ⟨fun docs url st depth h =>
    fetch_sitemap_recursive_depth_guard docs url st depth h,
   fun url st depth => fetchLoop_aux 11 depth (by omega) url st⟩

/-- C8 witness: a call at depth 11 on the self-loop graph is skipped and
succeeds with the state unchanged. -/
theorem c8_depth_ceiling_termination_witness :
    fetch_sitemap_recursive docsLoop "root" ([], []) 11 = .ok ([], []) :=
  c8_depth_ceiling_termination.1 docsLoop "root" ([], []) 11 (by decide)

theorem addEntries_append (st : List UrlEntry × List String)
    (l1 l2 : List UrlEntry) :
    addEntries st (l1 ++ l2) = addEntries (addEntries st l1) l2 := by
  unfold addEntries
  rw [List.foldl_append]

mutual

theorem fetchTreeRec_flat (t : SitemapTree) (st : List UrlEntry × List String)
    (depth : Nat) (h : treeDepth t + depth ≤ 10) :
    fetchTreeRec t st depth = addEntries st (leavesPre t) := by
  have hd : ¬ 10 < depth := by omega
  cases t with
  | leaf urls =>
    unfold fetchTreeRec
    rw [if_neg hd]
    rfl
  | idx cs =>
    unfold fetchTreeRec
    rw [if_neg hd]
    show fetchTreeChildren cs st (depth + 1) = _
    have h2 : treeDepthL cs + depth ≤ 10 := by
      unfold treeDepth at h
      omega
    rw [fetchTreeChildren_flat cs st depth h2]
    rfl

theorem fetchTreeChildren_flat (cs : SitemapTreeList)
    (st : List UrlEntry × List String) (depth : Nat)
    (h : treeDepthL cs + depth ≤ 10) :
    fetchTreeChildren cs st (depth + 1) = addEntries st (leavesL cs) := by
  cases cs with
  | nil =>
    unfold fetchTreeChildren
    rfl
  | cons t ts =>
    unfold fetchTreeChildren
    have hmax : max (treeDepth t + 1) (treeDepthL ts) + depth ≤ 10 := by
      unfold treeDepthL at h
      exact h
    have ht : treeDepth t + (depth + 1) ≤ 10 := by
      have := Nat.add_le_add_right (Nat.le_max_left (treeDepth t + 1)
        (treeDepthL ts)) depth
      omega
    have hts : treeDepthL ts + depth ≤ 10 := by
      have := Nat.add_le_add_right (Nat.le_max_right (treeDepth t + 1)
        (treeDepthL ts)) depth
      omega
    rw [fetchTreeRec_flat t st (depth + 1) ht]
    rw [fetchTreeChildren_flat ts (addEntries st (leavesPre t)) depth hts]
    rw [← addEntries_append]
    rfl

end

theorem addEntries_cons (st : List UrlEntry × List String) (e : UrlEntry)
    (l : List UrlEntry) :
    addEntries st (e :: l) =
      addEntries (if e.url ∈ st.2 then st else (st.1 ++ [e], e.url :: st.2))
        l := rfl

theorem addEntries_fst :
    ∀ (l acc : List UrlEntry) (seen : List String),
      (addEntries (acc, seen) l).1 = acc ++ dedupFirst l seen := by
  intro l
  induction l with
  | nil => intro acc seen; simp [addEntries, dedupFirst]
  | cons e es ih =>
    intro acc seen
    rw [addEntries_cons]
    unfold dedupFirst
    by_cases hm : e.url ∈ seen
    · rw [if_pos (show e.url ∈ (acc, seen).2 from hm), if_pos hm]
      exact ih acc seen
    · rw [if_neg (show e.url ∉ (acc, seen).2 from hm), if_neg hm]
      rw [ih (acc ++ [e]) (e.url :: seen)]
      simp [List.append_assoc]

theorem dedupFirst_nodup :
    ∀ (l : List UrlEntry) (seen : List String),
      ((dedupFirst l seen).map (fun e => e.url)).Nodup ∧
      ∀ u ∈ (dedupFirst l seen).map (fun e => e.url), u ∉ seen := by
  intro l
  induction l with
  | nil => intro seen; simp [dedupFirst]
  | cons e es ih =>
    intro seen
    unfold dedupFirst
    by_cases hm : e.url ∈ seen
    · rw [if_pos hm]; exact ih seen
    · rw [if_neg hm]
      obtain ⟨hnd, hnotin⟩ := ih (e.url :: seen)
      simp only [List.map_cons, List.nodup_cons]
      refine ⟨⟨?_, hnd⟩, ?_⟩
      · intro hin
        exact (hnotin _ hin) (List.mem_cons_self _ _)
      · intro u hu
        rcases List.mem_cons.mp hu with rfl | hu2
        · exact hm
        · intro hus
          exact hnotin u hu2 (List.mem_cons_of_mem _ hus)

theorem dedupFirst_mem :
    ∀ (l : List UrlEntry) (seen : List String) (u : String),
      (u ∈ (dedupFirst l seen).map (fun e => e.url) ↔
        (u ∈ l.map (fun e => e.url) ∧ u ∉ seen)) := by
  intro l
  induction l with
  | nil => intro seen u; simp [dedupFirst]
  | cons e es ih =>
    intro seen u
    unfold dedupFirst
    by_cases hm : e.url ∈ seen
    · rw [if_pos hm, ih]
      simp only [List.map_cons, List.mem_cons]
      constructor
      · rintro ⟨h1, h2⟩
        exact ⟨Or.inr h1, h2⟩
      · rintro ⟨h1 | h1, h2⟩
        · subst h1; exact absurd hm h2
        · exact ⟨h1, h2⟩
    · rw [if_neg hm]
      simp only [List.map_cons, List.mem_cons, ih]
      constructor
      · rintro (rfl | ⟨h1, h2⟩)
        · exact ⟨Or.inl rfl, hm⟩
        · exact ⟨Or.inr h1, fun hs => h2 (Or.inr hs)⟩
      · rintro ⟨h1 | h1, h2⟩
        · exact Or.inl h1
        · by_cases hue : u = e.url
          · exact Or.inl hue
          · exact Or.inr ⟨h1, fun hs => hs.elim hue h2⟩

/-- C7: for every acyclic sitemap tree of depth at most 10, the traversal
returns exactly the first-discovery deduplication of the depth-first
leaf-entry sequence: the single seen set spans the whole traversal, the
returned URLs are pairwise distinct, and a URL appears in the result iff
it appears under some leaf — hence each leaf URL exactly once, in
first-discovery order. -/
theorem c7_traversal (t : SitemapTree) (h : treeDepth t ≤ 10) :
    fetch_sitemap_urls t = dedupFirst (leavesPre t) [] ∧
    ((fetch_sitemap_urls t).map (fun e => e.url)).Nodup ∧
    (∀ u, u ∈ (fetch_sitemap_urls t).map (fun e => e.url) ↔
      u ∈ (leavesPre t).map (fun e => e.url)) := by
  have hflat := fetchTreeRec_flat t ([], []) 0 (by omega)
  have hfst : fetch_sitemap_urls t = dedupFirst (leavesPre t) [] := by
    unfold fetch_sitemap_urls
    rw [hflat]
    have hres := addEntries_fst (leavesPre t) [] []
    simpa using hres
  refine ⟨hfst, ?_, ?_⟩
  · rw [hfst]
    exact (dedupFirst_nodup (leavesPre t) []).1
  · intro u
    rw [hfst, dedupFirst_mem]
    simp

/-- C7 witness: a two-branch tree sharing URL `b` returns each leaf URL
once, in first-discovery order. -/
theorem c7_traversal_witness :
    fetch_sitemap_urls treeEx = dedupFirst (leavesPre treeEx) [] :=
  (c7_traversal treeEx (by decide)).1
